import Mathlib

/-!
Shallow embedding of the autoredistrict core (redistricting_algorithms.py,
src/core/apportionment.py, src/core/utils.py).

Modelling conventions:
* A pandas/GeoDataFrame row (one census unit) is a `GeoUnit`; a GeoDataFrame
  is a `List GeoUnit` in row order.  Only the columns the partitioner reads
  are modelled: `GEOID`, `P1_001N` (total population), `P1_003N` (the
  non-minority baseline) and `party`.  `P1_001N`/`P1_003N` are `Option ℚ`
  before the constructor's numeric coercion (`none` models a NaN or
  unparseable cell); `pd.to_numeric(...).fillna(0)` is `coerceUnit`.
* Machine floats are modelled by exact rationals `ℚ`; the float `inf`
  sentinel used by the best-split reduction is `⊤ : WithTop ℚ`.
* The geometric kernel that the algorithm consumes from shapely/numpy is
  abstracted as a `GeoBackend`: `side a u` is the Boolean sign test of
  `_calculate_side` (which side of the splitting line through the mean
  centroid, at angle `a`, the unit's centroid falls on) and `pp l` is the
  Polsby-Popper score `_polsby_popper_static` of the units' unioned
  geometry.  Every theorem about the partitioner quantifies over the
  backend, so it holds for the concrete trigonometric instantiation too.
  The Polsby-Popper formula itself and the splitting lines are modelled
  over `ℝ` separately (`polsby_popper`, `lineOfDeg`).
* The `to_crs` reprojections keep every row and every modelled attribute,
  so they are the identity on `List GeoUnit`.
* Qt progress signalling: the `partitions_done` counter and the emitted
  percentage never influence the returned districts, but the leaf case's
  `int((self.partitions_done / self.num_districts) * 100)` raises Python's
  `ZeroDivisionError: division by zero` when `num_districts` is 0.  The
  progress computation is therefore modelled by that one observable effect:
  the partitioner returns `Except String`, failing with "division by zero"
  exactly when a leaf is reached with `num_districts = 0`.
-/

/-- One row of the loaded GeoDataFrame (a census unit). -/
structure GeoUnit where
  GEOID : String
  P1_001N : Option ℚ
  P1_003N : Option ℚ
  party : ℚ
deriving DecidableEq, Repr

/-- The value the algorithm reads from the `P1_001N` column; after the
constructor's coercion a missing value has been replaced by `0`, which is
exactly `Option.getD 0`. -/
def GeoUnit.pop (u : GeoUnit) : ℚ := u.P1_001N.getD 0

/-- The value the algorithm reads from the `P1_003N` column. -/
def GeoUnit.pop3 (u : GeoUnit) : ℚ := u.P1_003N.getD 0

/-- `pd.to_numeric(col, errors='coerce').fillna(0)` on the numeric columns,
as performed by `RedistrictingAlgorithm.__init__` on the loaded table. -/
def coerceUnit (u : GeoUnit) : GeoUnit :=
  { u with P1_001N := some (u.P1_001N.getD 0), P1_003N := some (u.P1_003N.getD 0) }

/-- `gdf['P1_001N'].sum()`. -/
def sumPop (l : List GeoUnit) : ℚ := (l.map GeoUnit.pop).sum

/-- `gdf['P1_003N'].sum()`. -/
def sumPop3 (l : List GeoUnit) : ℚ := (l.map GeoUnit.pop3).sum

/-- The geometric kernel consumed by the algorithm (shapely / numpy):
`side a u` is `_calculate_side`'s sign test for unit `u` at angle `a`, and
`pp l` is `_polsby_popper_static` on the units' unioned geometry. -/
structure GeoBackend where
  side : ℚ → GeoUnit → Bool
  pp : List GeoUnit → ℚ

/-- The constructor arguments / attributes of `RedistrictingAlgorithm`;
field defaults are the Python keyword defaults. -/
structure RedistrictingAlgorithm where
  state_data : List GeoUnit
  num_districts : ℤ
  population_equality_weight : ℚ := 1
  compactness_weight : ℚ := 1
  partisan_weight : ℚ := 0
  vra_compliance : Bool := false
  communities_of_interest : List String := []
  coi_weight : ℚ := 1

/-- `RedistrictingAlgorithm.__init__`'s effect on the stored table: the
numeric columns are coerced in place (`pd.to_numeric(...).fillna(0)`). -/
def RedistrictingAlgorithm.init (a : RedistrictingAlgorithm) : RedistrictingAlgorithm :=
  { a with state_data := a.state_data.map coerceUnit }

/-- `np.linspace(start, stop, num)` with numpy's default `endpoint=True`:
`num` samples `start + i·(stop-start)/(num-1)`, both endpoints included. -/
def linspace (start stop : ℚ) (num : ℕ) : List ℚ :=
  (List.range num).map fun i => start + (stop - start) * i / (num - 1)

/-- The candidate splitting angles, `np.linspace(0, 180, 10)`
(`_find_best_split_cpu` line 237 and `_find_best_split_gpu` line 295). -/
def angles : List ℚ := linspace 0 180 10

/-- `_calculate_split_score_static` (the CPU scorer; the GPU variant
`_calculate_split_score_static_gpu` is line-for-line the same arithmetic). -/
def calculate_split_score_static (geo : GeoBackend)
    (area_gdf part1 part2 : List GeoUnit) (target_pop1 : ℚ)
    (population_equality_weight compactness_weight partisan_weight : ℚ)
    (vra_compliance : Bool) (communities_of_interest : List String)
    (coi_weight : ℚ) : ℚ :=
  let pop1 := sumPop part1
  let pop_balance_score := if 0 < target_pop1 then |pop1 - target_pop1| / target_pop1 else 0
  let compactness_score := 1 - (geo.pp part1 + geo.pp part2) / 2
  let vra_score : ℚ :=
    if vra_compliance then
      let total_pop_area := sumPop area_gdf
      let minority_percentage_area :=
        if 0 < total_pop_area then (total_pop_area - sumPop3 area_gdf) / total_pop_area else 0
      let total_pop_part1 := sumPop part1
      let minority_percentage_part1 :=
        if 0 < total_pop_part1 then (total_pop_part1 - sumPop3 part1) / total_pop_part1 else 0
      let total_pop_part2 := sumPop part2
      let minority_percentage_part2 :=
        if 0 < total_pop_part2 then (total_pop_part2 - sumPop3 part2) / total_pop_part2 else 0
      if 3 / 10 < minority_percentage_area then
        if minority_percentage_part1 < minority_percentage_area ∧
            minority_percentage_part2 < minority_percentage_area then
          minority_percentage_area - (minority_percentage_part1 + minority_percentage_part2) / 2
        else 0
      else 0
    else 0
  let partisan_score : ℚ :=
    if 0 < partisan_weight then
      let party1_part1 : ℚ :=
        if part1.length ≠ 0 then
          ((part1.filter fun u => (1 : ℚ) / 2 < u.party).length : ℚ) / part1.length
        else 0
      let party1_part2 : ℚ :=
        if part2.length ≠ 0 then
          ((part2.filter fun u => (1 : ℚ) / 2 < u.party).length : ℚ) / part2.length
        else 0
      1 - |party1_part1 - 1 / 2| - |party1_part2 - 1 / 2|
    else 0
  let coi_score : ℚ :=
    if communities_of_interest ≠ [] then
      if (area_gdf.filter fun u => u.GEOID ∈ communities_of_interest) ≠ [] then
        if (part1.filter fun u => u.GEOID ∈ communities_of_interest) ≠ [] ∧
            (part2.filter fun u => u.GEOID ∈ communities_of_interest) ≠ [] then 1
        else 0
      else 0
    else 0
  population_equality_weight * pop_balance_score +
    compactness_weight * compactness_score +
    partisan_weight * partisan_score +
    coi_weight * coi_score +
    vra_score

/-- `_process_angle`: classify each unit by the side test, fail with the
`inf` sentinel when either side is empty, otherwise score the split. -/
def process_angle (geo : GeoBackend) (angle : ℚ) (area_gdf : List GeoUnit)
    (target_pop1 : ℚ) (pew cw pw : ℚ) (vra : Bool) (coi : List String)
    (coiw : ℚ) : WithTop ℚ × Option (List GeoUnit × List GeoUnit) :=
  let part1 := area_gdf.filter fun u => geo.side angle u
  let part2 := area_gdf.filter fun u => !(geo.side angle u)
  if part1.isEmpty || part2.isEmpty then (⊤, none)
  else
    ((calculate_split_score_static geo area_gdf part1 part2 target_pop1
        pew cw pw vra coi coiw : ℚ), some (part1, part2))

/-- The reduction step of `_find_best_split_cpu`'s result loop
(`if score < best_score`). -/
def bestStep (acc r : WithTop ℚ × Option (List GeoUnit × List GeoUnit)) :
    WithTop ℚ × Option (List GeoUnit × List GeoUnit) :=
  if r.1 < acc.1 then r else acc

/-- `_find_best_split_cpu`: bail out on zero total population, score every
candidate angle (dask preserves task order, so the results come back in
angle order) and keep the first strict improvement.  The final `to_crs`
round-trip keeps every row and attribute, hence is the identity here. -/
def find_best_split_cpu (geo : GeoBackend) (alg : RedistrictingAlgorithm)
    (area_gdf : List GeoUnit) (num_districts_1 num_districts_2 : ℤ) :
    Option (List GeoUnit × List GeoUnit) :=
  let total_population := sumPop area_gdf
  if total_population = 0 then none
  else
    let target_pop1 :=
      total_population / ((num_districts_1 : ℚ) + (num_districts_2 : ℚ)) * (num_districts_1 : ℚ)
    let results := angles.map fun angle =>
      process_angle geo angle area_gdf target_pop1
        alg.population_equality_weight alg.compactness_weight alg.partisan_weight
        alg.vra_compliance alg.communities_of_interest alg.coi_weight
    (results.foldl bestStep (⊤, none)).2

/-- `_recursive_partition_cpu` (the GPU twin `_recursive_partition_gpu` has
the identical recursion structure).  `k ≤ 1` is the leaf case, whose progress
computation `int((partitions_done / num_districts) * 100)` raises
`ZeroDivisionError` when `self.num_districts` is 0 (the counter itself never
affects the returned districts); a failed or degenerate best split returns
the region unsplit, with no progress computation on that path.  Exceptions
from the recursive calls propagate, as in Python. -/
def recursive_partition_cpu (geo : GeoBackend) (alg : RedistrictingAlgorithm)
    (area_gdf : List GeoUnit) (k : ℤ) : Except String (List (List GeoUnit)) :=
  if k ≤ 1 then
    if alg.num_districts = 0 then .error ("division by zero")
    else .ok [area_gdf]
  else
    match find_best_split_cpu geo alg area_gdf (Int.fdiv k 2) (k - Int.fdiv k 2) with
    | none => .ok [area_gdf]
    | some (p1, p2) =>
      if p1.isEmpty || p2.isEmpty then .ok [area_gdf]
      else
        match recursive_partition_cpu geo alg p1 (Int.fdiv k 2) with
        | .error e => .error e
        | .ok districts_1 =>
          match recursive_partition_cpu geo alg p2 (k - Int.fdiv k 2) with
          | .error e => .error e
          | .ok districts_2 => .ok (districts_1 ++ districts_2)
termination_by k.toNat
decreasing_by
  · have := Int.fdiv_eq_ediv k (by norm_num : (0 : ℤ) ≤ 2)
    omega
  · have := Int.fdiv_eq_ediv k (by norm_num : (0 : ℤ) ≤ 2)
    omega

/-- `RedistrictingAlgorithm.divide_and_conquer` (CPU path; the GPU path is
taken only when CUDA is available and runs the structurally identical
`_recursive_partition_gpu`). -/
def RedistrictingAlgorithm.divide_and_conquer (geo : GeoBackend)
    (alg : RedistrictingAlgorithm) : Except String (List (List GeoUnit)) :=
  recursive_partition_cpu geo alg alg.state_data alg.num_districts

/-- `RedistrictingAlgorithm.gerrymander`: overwrite `self.partisan_weight`
with `1.0`, then run the same recursion. -/
def RedistrictingAlgorithm.gerrymander (geo : GeoBackend)
    (alg : RedistrictingAlgorithm) : Except String (List (List GeoUnit)) :=
  recursive_partition_cpu geo { alg with partisan_weight := 1 }
    alg.state_data alg.num_districts

theorem angles_eval : angles = [0, 20, 40, 60, 80, 100, 120, 140, 160, 180] := by
  simp [angles, linspace, List.range_succ]
  norm_num

theorem foldl_bestStep_mem (rs : List (WithTop ℚ × Option (List GeoUnit × List GeoUnit)))
    (acc : WithTop ℚ × Option (List GeoUnit × List GeoUnit)) :
    rs.foldl bestStep acc = acc ∨ rs.foldl bestStep acc ∈ rs := by
  induction rs generalizing acc with
  | nil => left; rfl
  | cons r tl ih =>
    rw [List.foldl_cons]
    rcases ih (bestStep acc r) with h | h
    · rw [h]
      by_cases hc : r.1 < acc.1
      · right
        simp [bestStep, hc]
      · left
        simp [bestStep, hc]
    · right
      exact List.mem_cons_of_mem r h

theorem process_angle_some {geo : GeoBackend} {angle : ℚ} {area : List GeoUnit}
    {target pew cw pw : ℚ} {vra : Bool} {coi : List String} {coiw : ℚ}
    {s : WithTop ℚ} {p1 p2 : List GeoUnit}
    (h : process_angle geo angle area target pew cw pw vra coi coiw = (s, some (p1, p2))) :
    p1 = area.filter (fun u => geo.side angle u) ∧
      p2 = area.filter (fun u => !(geo.side angle u)) := by
  simp only [process_angle] at h
  split at h
  · simp at h
  · rw [Prod.mk.injEq, Option.some.injEq, Prod.mk.injEq] at h
    exact ⟨h.2.1.symm, h.2.2.symm⟩

theorem find_best_split_cpu_some {geo : GeoBackend} {alg : RedistrictingAlgorithm}
    {area : List GeoUnit} {k1 k2 : ℤ} {p1 p2 : List GeoUnit}
    (h : find_best_split_cpu geo alg area k1 k2 = some (p1, p2)) :
    ∃ angle, p1 = area.filter (fun u => geo.side angle u) ∧
      p2 = area.filter (fun u => !(geo.side angle u)) := by
  simp only [find_best_split_cpu] at h
  split at h
  · simp at h
  · rcases foldl_bestStep_mem (angles.map fun angle =>
        process_angle geo angle area
          (sumPop area / ((k1 : ℚ) + (k2 : ℚ)) * (k1 : ℚ))
          alg.population_equality_weight alg.compactness_weight alg.partisan_weight
          alg.vra_compliance alg.communities_of_interest alg.coi_weight) (⊤, none)
      with heq | hmem
    · rw [heq] at h
      simp at h
    · rw [List.mem_map] at hmem
      obtain ⟨angle, -, hangle⟩ := hmem
      have hpa : process_angle geo angle area
          (sumPop area / ((k1 : ℚ) + (k2 : ℚ)) * (k1 : ℚ))
          alg.population_equality_weight alg.compactness_weight alg.partisan_weight
          alg.vra_compliance alg.communities_of_interest alg.coi_weight =
          ((List.foldl bestStep (⊤, none) (angles.map fun angle =>
            process_angle geo angle area
              (sumPop area / ((k1 : ℚ) + (k2 : ℚ)) * (k1 : ℚ))
              alg.population_equality_weight alg.compactness_weight alg.partisan_weight
              alg.vra_compliance alg.communities_of_interest alg.coi_weight)).1,
            some (p1, p2)) := by
        rw [hangle, ← h]
      exact ⟨angle, process_angle_some hpa⟩

theorem mem_filter_not_of_mem_filter {α : Type} (p : α → Bool) (l : List α) (u : α)
    (h1 : u ∈ l.filter p) : u ∉ l.filter fun x => !(p x) := by
  simp only [List.mem_filter] at *
  simp [h1.2]

theorem mem_iff_mem_filter_or {α : Type} (p : α → Bool) (l : List α) (u : α) :
    u ∈ l ↔ u ∈ l.filter p ∨ u ∈ l.filter fun x => !(p x) := by
  simp only [List.mem_filter]
  cases hp : p u <;> simp [hp]

theorem recursive_partition_cpu_flatten_perm (geo : GeoBackend) (alg : RedistrictingAlgorithm) :
    ∀ (area : List GeoUnit) (k : ℤ) (ds : List (List GeoUnit)),
    recursive_partition_cpu geo alg area k = .ok ds → (ds.flatten).Perm area := by
  intro area k
  induction area, k using recursive_partition_cpu.induct geo alg with
  | case1 area k hk hnd =>
    intro ds h
    rw [recursive_partition_cpu, if_pos hk, if_pos hnd] at h
    simp at h
  | case2 area k hk hnd =>
    intro ds h
    rw [recursive_partition_cpu, if_pos hk, if_neg hnd, Except.ok.injEq] at h
    subst h
    simp
  | case3 area k hk hsplit =>
    intro ds h
    rw [recursive_partition_cpu, if_neg hk] at h
    simp only [hsplit, Except.ok.injEq] at h
    subst h
    simp
  | case4 area k hk p1 p2 hsplit hemp =>
    intro ds h
    rw [recursive_partition_cpu, if_neg hk] at h
    simp only [hsplit] at h
    rw [if_pos hemp, Except.ok.injEq] at h
    subst h
    simp
  | case5 area k hk p1 p2 hsplit hemp e herr ih1 =>
    intro ds h
    rw [recursive_partition_cpu, if_neg hk] at h
    simp only [hsplit] at h
    rw [if_neg hemp] at h
    simp only [herr] at h
    simp at h
  | case6 area k hk p1 p2 hsplit hemp d1 hok1 e herr ih1 ih2 =>
    intro ds h
    rw [recursive_partition_cpu, if_neg hk] at h
    simp only [hsplit] at h
    rw [if_neg hemp] at h
    simp only [hok1, herr] at h
    simp at h
  | case7 area k hk p1 p2 hsplit hemp d1 hok1 d2 hok2 ih1 ih2 =>
    intro ds h
    rw [recursive_partition_cpu, if_neg hk] at h
    simp only [hsplit] at h
    rw [if_neg hemp] at h
    simp only [hok1, hok2, Except.ok.injEq] at h
    subst h
    obtain ⟨angle, h1, h2⟩ := find_best_split_cpu_some hsplit
    rw [List.flatten_append]
    refine ((ih1 d1 hok1).append (ih2 d2 hok2)).trans ?_
    rw [h1, h2]
    exact List.filter_append_perm _ area

theorem recursive_partition_cpu_total (geo : GeoBackend)
    (alg : RedistrictingAlgorithm) (hnd : alg.num_districts ≠ 0) :
    ∀ (area : List GeoUnit) (k : ℤ),
    ∃ ds, recursive_partition_cpu geo alg area k = .ok ds := by
  intro area k
  induction area, k using recursive_partition_cpu.induct geo alg with
  | case1 area k hk hnd0 => exact absurd hnd0 hnd
  | case2 area k hk hnd0 =>
    exact ⟨[area], by rw [recursive_partition_cpu, if_pos hk, if_neg hnd0]⟩
  | case3 area k hk hsplit =>
    refine ⟨[area], ?_⟩
    rw [recursive_partition_cpu, if_neg hk]
    simp only [hsplit]
  | case4 area k hk p1 p2 hsplit hemp =>
    refine ⟨[area], ?_⟩
    rw [recursive_partition_cpu, if_neg hk]
    simp only [hsplit]
    rw [if_pos hemp]
  | case5 area k hk p1 p2 hsplit hemp e herr ih1 =>
    obtain ⟨d1, hok⟩ := ih1
    rw [herr] at hok
    simp at hok
  | case6 area k hk p1 p2 hsplit hemp d1 hok1 e herr ih1 ih2 =>
    obtain ⟨d2, hok⟩ := ih2
    rw [herr] at hok
    simp at hok
  | case7 area k hk p1 p2 hsplit hemp d1 hok1 d2 hok2 ih1 ih2 =>
    refine ⟨d1 ++ d2, ?_⟩
    rw [recursive_partition_cpu, if_neg hk]
    simp only [hsplit]
    rw [if_neg hemp]
    simp only [hok1, hok2]

theorem sum_map_sumPop (L : List (List GeoUnit)) : (L.map sumPop).sum = sumPop L.flatten := by
  induction L with
  | nil => simp [sumPop]
  | cons d tl ih => simp [sumPop, List.flatten_cons, ih]


/-- Sample unit on side "a" of the witness backend. -/
def uA : GeoUnit := { GEOID := "a", P1_001N := some 1, P1_003N := some 0, party := 1 }

/-- Sample unit on side "b" of the witness backend. -/
def uB : GeoUnit := { GEOID := "b", P1_001N := some 1, P1_003N := some 0, party := 0 }

/-- A concrete geometric backend for witnesses: at every angle the unit with
identifier "a" falls on side 1, everything else on side 2; all compactness
scores are 0. -/
def geoA : GeoBackend := { side := fun _ u => u.GEOID == "a", pp := fun _ => 0 }

/-- A concrete algorithm configuration (all Python keyword defaults). -/
def algA : RedistrictingAlgorithm := { state_data := [uA, uB], num_districts := 2 }

theorem str_b_ne_a : (("b" : String) = "a") = False := by simp

theorem find_best_split_geoA_eval :
    find_best_split_cpu geoA algA [uA, uB] 1 1 = some ([uA], [uB]) := by
  norm_num [find_best_split_cpu, angles_eval, process_angle, calculate_split_score_static,
    bestStep, sumPop, sumPop3, GeoUnit.pop, GeoUnit.pop3, uA, uB, geoA, algA,
    List.filter_cons, List.filter_nil, str_b_ne_a]

theorem recursive_partition_two (geo : GeoBackend) (alg : RedistrictingAlgorithm)
    (area p1 p2 : List GeoUnit) (hnd : alg.num_districts ≠ 0)
    (h : find_best_split_cpu geo alg area 1 1 = some (p1, p2))
    (h1 : p1.isEmpty = false) (h2 : p2.isEmpty = false) :
    recursive_partition_cpu geo alg area 2 = .ok [p1, p2] := by
  rw [recursive_partition_cpu, if_neg (by norm_num : ¬(2 : ℤ) ≤ 1)]
  have hf : Int.fdiv 2 2 = 1 := rfl
  have hs : (2 : ℤ) - 1 = 1 := by norm_num
  rw [hf, hs, h]
  have hp1 : recursive_partition_cpu geo alg p1 1 = .ok [p1] := by
    rw [recursive_partition_cpu, if_pos (by norm_num : (1 : ℤ) ≤ 1), if_neg hnd]
  have hp2 : recursive_partition_cpu geo alg p2 1 = .ok [p2] := by
    rw [recursive_partition_cpu, if_pos (by norm_num : (1 : ℤ) ≤ 1), if_neg hnd]
  simp [h1, h2, hp1, hp2]

theorem rp_geoA_two_eval :
    recursive_partition_cpu geoA algA [uA, uB] 2 = .ok [[uA], [uB]] :=
  recursive_partition_two geoA algA [uA, uB] [uA] [uB] (by decide)
    find_best_split_geoA_eval rfl rfl

/-- C1: every committed split's two parts are disjoint and their union is the
parent's unit set, and for every run of the recursive partitioner (degenerate
fallbacks included) the output districts' units are exactly the input units
and the output districts' populations sum to the input total population. -/
theorem c1_split_partition_and_population_conservation :
    (∀ (geo : GeoBackend) (alg : RedistrictingAlgorithm) (area : List GeoUnit)
        (k1 k2 : ℤ) (p1 p2 : List GeoUnit),
        find_best_split_cpu geo alg area k1 k2 = some (p1, p2) →
        (∀ u, u ∈ p1 → u ∉ p2) ∧ (∀ u, u ∈ area ↔ u ∈ p1 ∨ u ∈ p2)) ∧
    (∀ (geo : GeoBackend) (alg : RedistrictingAlgorithm) (area : List GeoUnit) (k : ℤ)
        (ds : List (List GeoUnit)),
        recursive_partition_cpu geo alg area k = .ok ds →
        (∀ u, u ∈ ds.flatten ↔ u ∈ area) ∧ (ds.map sumPop).sum = sumPop area) ∧
    (∀ (geo : GeoBackend) (alg : RedistrictingAlgorithm), alg.num_districts ≠ 0 →
        ∀ (area : List GeoUnit) (k : ℤ),
        ∃ ds, recursive_partition_cpu geo alg area k = .ok ds) := by
  refine ⟨?_, ?_, fun geo alg hnd => recursive_partition_cpu_total geo alg hnd⟩
  · intro geo alg area k1 k2 p1 p2 h
    obtain ⟨angle, h1, h2⟩ := find_best_split_cpu_some h
    subst h1
    subst h2
    exact ⟨mem_filter_not_of_mem_filter _ area, mem_iff_mem_filter_or _ area⟩
  · intro geo alg area k ds h
    have hp := recursive_partition_cpu_flatten_perm geo alg area k ds h
    refine ⟨fun u => hp.mem_iff, ?_⟩
    rw [sum_map_sumPop]
    unfold sumPop
    exact (hp.map GeoUnit.pop).sum_eq

/-- Witness for C1: a concrete committed split and a concrete completed run
on a two-unit region. -/
theorem c1_split_partition_and_population_conservation_witness :
    find_best_split_cpu geoA algA [uA, uB] 1 1 = some ([uA], [uB]) ∧
    recursive_partition_cpu geoA algA [uA, uB] 2 = .ok [[uA], [uB]] ∧
    ((∀ u, u ∈ [uA] → u ∉ [uB]) ∧ (∀ u, u ∈ [uA, uB] ↔ u ∈ [uA] ∨ u ∈ [uB])) ∧
    ((∀ u, u ∈ ([[uA], [uB]] : List (List GeoUnit)).flatten ↔ u ∈ [uA, uB]) ∧
      (([[uA], [uB]] : List (List GeoUnit)).map sumPop).sum = sumPop [uA, uB]) :=
  ⟨find_best_split_geoA_eval, rp_geoA_two_eval,
    c1_split_partition_and_population_conservation.1 geoA algA [uA, uB] 1 1 [uA] [uB]
      find_best_split_geoA_eval,
    c1_split_partition_and_population_conservation.2.1 geoA algA [uA, uB] 2 [[uA], [uB]]
      rp_geoA_two_eval⟩

theorem foldl_bestStep_all_top (rs : List (WithTop ℚ × Option (List GeoUnit × List GeoUnit)))
    (hrs : ∀ r ∈ rs, r = ((⊤ : WithTop ℚ), (none : Option (List GeoUnit × List GeoUnit)))) :
    rs.foldl bestStep (⊤, none) = (⊤, none) := by
  induction rs with
  | nil => rfl
  | cons r tl ih =>
    rw [List.foldl_cons, hrs r (List.mem_cons_self r tl)]
    have hstep : bestStep ((⊤ : WithTop ℚ), (none : Option (List GeoUnit × List GeoUnit)))
        (⊤, none) = (⊤, none) := by
      simp [bestStep]
    rw [hstep]
    exact ih fun x hx => hrs x (List.mem_cons_of_mem _ hx)

theorem process_angle_top {geo : GeoBackend} {angle : ℚ} {area : List GeoUnit}
    {target pew cw pw : ℚ} {vra : Bool} {coi : List String} {coiw : ℚ}
    (h : (area.filter fun u => geo.side angle u) = [] ∨
      (area.filter fun u => !(geo.side angle u)) = []) :
    process_angle geo angle area target pew cw pw vra coi coiw = (⊤, none) := by
  simp only [process_angle]
  rcases h with h | h <;> rw [if_pos] <;> simp [h]

theorem find_best_split_cpu_none {geo : GeoBackend} {alg : RedistrictingAlgorithm}
    {area : List GeoUnit} {k1 k2 : ℤ}
    (h : sumPop area = 0 ∨ ∀ angle ∈ angles,
      (area.filter fun u => geo.side angle u) = [] ∨
      (area.filter fun u => !(geo.side angle u)) = []) :
    find_best_split_cpu geo alg area k1 k2 = none := by
  rcases h with h | h
  · simp [find_best_split_cpu, h]
  · simp only [find_best_split_cpu]
    split
    · rfl
    · rw [foldl_bestStep_all_top]
      intro r hr
      rw [List.mem_map] at hr
      obtain ⟨angle, ha, rfl⟩ := hr
      exact process_angle_top (h angle ha)

/-- C4: when a Splittable region (requested seats at least 2) has zero total
population, or no candidate angle yields two non-empty sides, the partitioner
returns the whole region as one undivided output group, so the output count 1
is smaller than the requested seat count. -/
theorem c4_degenerate_region_returned_whole (geo : GeoBackend)
    (alg : RedistrictingAlgorithm) (area : List GeoUnit) (k : ℤ) (hk : 2 ≤ k)
    (h : sumPop area = 0 ∨ ∀ angle ∈ angles,
      (area.filter fun u => geo.side angle u) = [] ∨
      (area.filter fun u => !(geo.side angle u)) = []) :
    recursive_partition_cpu geo alg area k = .ok [area] ∧
      ([area] : List (List GeoUnit)).length < k := by
  rw [recursive_partition_cpu]
  rw [if_neg (by omega : ¬k ≤ 1), find_best_split_cpu_none h]
  exact ⟨rfl, by simpa using hk⟩

/-- Degenerate witness backend: every unit falls on side 1 at every angle. -/
def geoB : GeoBackend := { side := fun _ _ => true, pp := fun _ => 0 }

/-- Witness for C4: a one-unit region with requested seats 2 and a backend
that puts every unit on the same side of every line. -/
theorem c4_degenerate_region_returned_whole_witness :
    (2 : ℤ) ≤ 2 ∧
    (sumPop [uA] = 0 ∨ ∀ angle ∈ angles,
      ([uA].filter fun u => geoB.side angle u) = [] ∨
      ([uA].filter fun u => !(geoB.side angle u)) = []) ∧
    (recursive_partition_cpu geoB algA [uA] 2 = .ok [[uA]] ∧
      ((([[uA]] : List (List GeoUnit)).length : ℤ) < 2)) :=
  have hcond : sumPop [uA] = 0 ∨ ∀ angle ∈ angles,
      ([uA].filter fun u => geoB.side angle u) = [] ∨
      ([uA].filter fun u => !(geoB.side angle u)) = [] :=
    Or.inr fun angle _ => Or.inr (by simp [geoB])
  ⟨le_refl 2, hcond,
    c4_degenerate_region_returned_whole geoB algA [uA] 2 (le_refl 2) hcond⟩

/-- C3 counterexample: a request for a negative target seat count is not
rejected with any error at all -- the partitioner produces a one-district
list -- and a request for zero target seats fails, but with the leaf case's
incidental ZeroDivisionError from the progress computation, not with an
up-front InvalidConfiguration rejection. -/
theorem c3_not_rejected_counterexample :
    RedistrictingAlgorithm.divide_and_conquer geoA
      { state_data := [uA], num_districts := -1 } = .ok [[uA]] ∧
    RedistrictingAlgorithm.divide_and_conquer geoA
      { state_data := [uA], num_districts := 0 } = .error ("division by zero") := by
  constructor
  · rw [RedistrictingAlgorithm.divide_and_conquer, recursive_partition_cpu]
    norm_num
  · rw [RedistrictingAlgorithm.divide_and_conquer, recursive_partition_cpu]
    norm_num

/-- C3 amended: no validation rejects a zero or negative target seat count.
A negative count reaches the `num_districts_to_create <= 1` base case and
returns the whole region as a single output district; a zero count crashes
in that same base case with Python's ZeroDivisionError, raised incidentally
by the progress computation `int((partitions_done / num_districts) * 100)`
-- not by any configuration check before computation starts. -/
theorem c3_no_validation_zero_and_negative :
    (∀ (geo : GeoBackend) (alg : RedistrictingAlgorithm), alg.num_districts < 0 →
      RedistrictingAlgorithm.divide_and_conquer geo alg = .ok [alg.state_data]) ∧
    (∀ (geo : GeoBackend) (alg : RedistrictingAlgorithm), alg.num_districts = 0 →
      RedistrictingAlgorithm.divide_and_conquer geo alg =
        .error ("division by zero")) := by
  constructor
  · intro geo alg h
    rw [RedistrictingAlgorithm.divide_and_conquer, recursive_partition_cpu]
    rw [if_pos (by omega), if_neg (by omega)]
  · intro geo alg h
    rw [RedistrictingAlgorithm.divide_and_conquer, recursive_partition_cpu]
    rw [if_pos (by omega), if_pos h]

/-- Witness for C3 (amended form) at seat counts -1 and 0. -/
theorem c3_no_validation_zero_and_negative_witness :
    (({ state_data := [uA], num_districts := -1 } :
        RedistrictingAlgorithm).num_districts < 0 ∧
      RedistrictingAlgorithm.divide_and_conquer geoA
        { state_data := [uA], num_districts := -1 } = .ok [[uA]]) ∧
    (({ state_data := [uA], num_districts := 0 } :
        RedistrictingAlgorithm).num_districts = 0 ∧
      RedistrictingAlgorithm.divide_and_conquer geoA
        { state_data := [uA], num_districts := 0 } =
          .error ("division by zero")) :=
  ⟨⟨by norm_num,
    c3_no_validation_zero_and_negative.1 geoA
      { state_data := [uA], num_districts := -1 } (by norm_num)⟩,
   ⟨rfl,
    c3_no_validation_zero_and_negative.2 geoA
      { state_data := [uA], num_districts := 0 } rfl⟩⟩

/-- A loaded unit whose `P1_001N` cell is NaN/unparseable. -/
def uDirty : GeoUnit := { GEOID := "d", P1_001N := none, P1_003N := some 0, party := 0 }

theorem coerceUnit_eq_self {u : GeoUnit} (h1 : u.P1_001N.isSome = true)
    (h2 : u.P1_003N.isSome = true) : coerceUnit u = u := by
  obtain ⟨g, p1, p3, pa⟩ := u
  obtain ⟨x, rfl⟩ := Option.isSome_iff_exists.mp h1
  obtain ⟨y, rfl⟩ := Option.isSome_iff_exists.mp h2
  rfl

theorem map_coerceUnit_eq_self (l : List GeoUnit)
    (h : ∀ u ∈ l, u.P1_001N.isSome = true ∧ u.P1_003N.isSome = true) :
    l.map coerceUnit = l := by
  induction l with
  | nil => rfl
  | cons u tl ih =>
    have hu := h u (List.mem_cons_self u tl)
    rw [List.map_cons, coerceUnit_eq_self hu.1 hu.2,
      ih fun x hx => h x (List.mem_cons_of_mem _ hx)]

/-- C7 counterexample: loading a table with a NaN population cell through the
constructor and running the partitioner returns a unit whose `P1_001N`
attribute has been rewritten to 0; it is no longer the loaded unit. -/
theorem c7_units_mutated_counterexample :
    RedistrictingAlgorithm.divide_and_conquer geoA
        (RedistrictingAlgorithm.init { state_data := [uDirty], num_districts := 1 }) =
      .ok [[{ GEOID := "d", P1_001N := some 0, P1_003N := some 0, party := 0 }]] ∧
    ({ GEOID := "d", P1_001N := some 0, P1_003N := some 0, party := 0 } : GeoUnit) ≠ uDirty := by
  constructor
  · rw [RedistrictingAlgorithm.divide_and_conquer, recursive_partition_cpu]
    norm_num [RedistrictingAlgorithm.init, coerceUnit, uDirty]
  · intro h
    have := congrArg GeoUnit.P1_001N h
    simp [uDirty] at this

/-- C7 amended: the partitioning phase itself never mutates units (every
run's output districts hold exactly the input rows), and for a table whose
numeric cells are all present the whole run -- constructor coercion included
-- returns the loaded units unchanged; only units with missing numeric cells
are rewritten (to 0), and that happens once, in the constructor. -/
theorem c7_partitioner_only_groups_units :
    (∀ (geo : GeoBackend) (alg : RedistrictingAlgorithm) (area : List GeoUnit) (k : ℤ)
        (ds : List (List GeoUnit)),
      recursive_partition_cpu geo alg area k = .ok ds → (ds.flatten).Perm area) ∧
    (∀ (geo : GeoBackend) (alg : RedistrictingAlgorithm),
      (∀ u ∈ alg.state_data, u.P1_001N.isSome = true ∧ u.P1_003N.isSome = true) →
      ∀ ds : List (List GeoUnit),
        RedistrictingAlgorithm.divide_and_conquer geo
          (RedistrictingAlgorithm.init alg) = .ok ds →
        (ds.flatten).Perm alg.state_data) := by
  refine ⟨recursive_partition_cpu_flatten_perm, ?_⟩
  intro geo alg h ds hds
  have hsd : (RedistrictingAlgorithm.init alg).state_data = alg.state_data := by
    simp only [RedistrictingAlgorithm.init]
    exact map_coerceUnit_eq_self _ h
  rw [RedistrictingAlgorithm.divide_and_conquer, hsd] at hds
  exact recursive_partition_cpu_flatten_perm geo _ alg.state_data _ ds hds

/-- Witness for C7 (amended form): a clean two-unit table round-trips through
a full run untouched. -/
theorem c7_partitioner_only_groups_units_witness :
    (∀ u ∈ algA.state_data, u.P1_001N.isSome = true ∧ u.P1_003N.isSome = true) ∧
    RedistrictingAlgorithm.divide_and_conquer geoA
      (RedistrictingAlgorithm.init algA) = .ok [[uA], [uB]] ∧
    (([[uA], [uB]] : List (List GeoUnit)).flatten).Perm algA.state_data :=
  have hclean : ∀ u ∈ algA.state_data, u.P1_001N.isSome = true ∧ u.P1_003N.isSome = true := by
    intro u hu
    simp only [algA, uA, uB, List.mem_cons, List.mem_singleton] at hu
    rcases hu with rfl | rfl | h
    · exact ⟨rfl, rfl⟩
    · exact ⟨rfl, rfl⟩
    · cases h
  have hrun : RedistrictingAlgorithm.divide_and_conquer geoA
      (RedistrictingAlgorithm.init algA) = .ok [[uA], [uB]] := by
    have hinit : RedistrictingAlgorithm.init algA = algA := rfl
    rw [hinit]
    exact rp_geoA_two_eval
  ⟨hclean, hrun, c7_partitioner_only_groups_units.2 geoA algA hclean [[uA], [uB]] hrun⟩

/-- Third sample unit (majority party). -/
def uC : GeoUnit := { GEOID := "c", P1_001N := some 1, P1_003N := some 0, party := 1 }

/-- Fourth sample unit (minority party). -/
def uD : GeoUnit := { GEOID := "d", P1_001N := some 1, P1_003N := some 0, party := 0 }

/-- Backend whose angle-0 line isolates unit "a" and whose other lines split
{a,b} from {c,d}; all compactness scores are 0. -/
def geoC : GeoBackend :=
  { side := fun angle u =>
      if angle = 0 then u.GEOID == "a" else (u.GEOID == "a" || u.GEOID == "b"),
    pp := fun _ => 0 }

theorem str_c_ne_a : (("c" : String) = "a") = False := by simp

theorem str_d_ne_a : (("d" : String) = "a") = False := by simp

theorem str_c_ne_b : (("c" : String) = "b") = False := by simp

theorem str_d_ne_b : (("d" : String) = "b") = False := by simp

theorem abs_half_eval : |(1 : ℚ) / 2| = 1 / 2 := abs_of_nonneg (by norm_num)

theorem abs_sixth_eval : |(1 : ℚ) / 6| = 1 / 6 := abs_of_nonneg (by norm_num)

theorem find_best_split_geoC_w0_eval :
    find_best_split_cpu geoC
      { state_data := [uA, uB, uC, uD], num_districts := 2 }
      [uA, uB, uC, uD] 1 1 = some ([uA, uB], [uC, uD]) := by
  norm_num [find_best_split_cpu, angles_eval, process_angle, calculate_split_score_static,
    bestStep, sumPop, sumPop3, GeoUnit.pop, GeoUnit.pop3, uA, uB, uC, uD, geoC,
    List.filter_cons, List.filter_nil, List.cons_ne_nil, str_b_ne_a, str_c_ne_a,
    str_d_ne_a, str_c_ne_b, str_d_ne_b, abs_half_eval, abs_sixth_eval,
    -WithTop.coe_add, -WithTop.coe_one, WithTop.coe_lt_top, WithTop.coe_lt_coe]

theorem find_best_split_geoC_w9_eval :
    find_best_split_cpu geoC
      { state_data := [uA, uB, uC, uD], num_districts := 2, partisan_weight := 9 / 10 }
      [uA, uB, uC, uD] 1 1 = some ([uA], [uB, uC, uD]) := by
  norm_num [find_best_split_cpu, angles_eval, process_angle, calculate_split_score_static,
    bestStep, sumPop, sumPop3, GeoUnit.pop, GeoUnit.pop3, uA, uB, uC, uD, geoC,
    List.filter_cons, List.filter_nil, List.cons_ne_nil, str_b_ne_a, str_c_ne_a,
    str_d_ne_a, str_c_ne_b, str_d_ne_b, abs_half_eval, abs_sixth_eval,
    -WithTop.coe_add, -WithTop.coe_one, WithTop.coe_lt_top, WithTop.coe_lt_coe]

/-- C8 counterexample: with a caller-supplied partisan weight of 9/10,
`divide_and_conquer` (the "fair" mode) picks a different plan than with
weight 0 on the same input, so the partisan cost term is active in fair mode
-- fair mode does not run with partisan weight 0. -/
theorem c8_fair_mode_weight_active_counterexample :
    RedistrictingAlgorithm.divide_and_conquer geoC
        { state_data := [uA, uB, uC, uD], num_districts := 2,
          partisan_weight := 9 / 10 } = .ok [[uA], [uB, uC, uD]] ∧
    RedistrictingAlgorithm.divide_and_conquer geoC
        { state_data := [uA, uB, uC, uD], num_districts := 2 } =
      .ok [[uA, uB], [uC, uD]] ∧
    ([[uA], [uB, uC, uD]] : List (List GeoUnit)) ≠ [[uA, uB], [uC, uD]] := by
  refine ⟨?_, ?_, ?_⟩
  · rw [RedistrictingAlgorithm.divide_and_conquer]
    exact recursive_partition_two _ _ _ _ _ (by decide)
      find_best_split_geoC_w9_eval rfl rfl
  · rw [RedistrictingAlgorithm.divide_and_conquer]
    exact recursive_partition_two _ _ _ _ _ (by decide)
      find_best_split_geoC_w0_eval rfl rfl
  · simp [uA, uB]

/-- C8 amended: `gerrymander` forces the partisan weight to 1.0 regardless of
the caller-supplied weight and is otherwise identical to `divide_and_conquer`
(same data, seat count and all other scoring parameters), while
`divide_and_conquer` runs with the caller-supplied partisan weight, whose
constructor default is 0 -- it is the default, not the method, that makes the
partisan term inactive in the fair mode. -/
theorem c8_modes_differ_only_in_partisan_weight :
    (∀ (geo : GeoBackend) (alg : RedistrictingAlgorithm),
      RedistrictingAlgorithm.gerrymander geo alg =
        RedistrictingAlgorithm.divide_and_conquer geo { alg with partisan_weight := 1 }) ∧
    (∀ (sd : List GeoUnit) (k : ℤ),
      ({ state_data := sd, num_districts := k } : RedistrictingAlgorithm).partisan_weight = 0) :=
  ⟨fun _ _ => rfl, fun _ _ => rfl⟩

theorem foldl_bestStep_argmin (rs : List (WithTop ℚ × Option (List GeoUnit × List GeoUnit)))
    (acc : WithTop ℚ × Option (List GeoUnit × List GeoUnit)) :
    (rs.foldl bestStep acc = acc ∧ ∀ r ∈ rs, ¬(r.1 < acc.1)) ∨
    (∃ pre post, rs = pre ++ rs.foldl bestStep acc :: post ∧
      (rs.foldl bestStep acc).1 < acc.1 ∧
      (∀ r ∈ pre, (rs.foldl bestStep acc).1 < r.1) ∧
      (∀ r ∈ rs, ¬(r.1 < (rs.foldl bestStep acc).1))) := by
  induction rs generalizing acc with
  | nil => exact Or.inl ⟨rfl, by simp⟩
  | cons r tl ih =>
    rw [List.foldl_cons]
    by_cases hc : r.1 < acc.1
    · have hstep : bestStep acc r = r := by simp [bestStep, hc]
      rw [hstep]
      rcases ih r with ⟨heq, hall⟩ | ⟨pre, post, hdec, hlt, hpre, hmin⟩
      · right
        refine ⟨[], tl, by simp [heq], by rw [heq]; exact hc, by simp, ?_⟩
        intro x hx
        rw [heq]
        rcases List.mem_cons.mp hx with rfl | hx
        · exact lt_irrefl _
        · exact hall x hx
      · right
        refine ⟨r :: pre, post, by rw [List.cons_append, ← hdec], lt_trans hlt hc, ?_, ?_⟩
        · intro x hx
          rcases List.mem_cons.mp hx with rfl | hx
          · exact hlt
          · exact hpre x hx
        · intro x hx
          rcases List.mem_cons.mp hx with rfl | hx
          · exact fun hxx => absurd hlt (not_lt.mpr (le_of_lt hxx))
          · exact hmin x hx
    · have hstep : bestStep acc r = acc := by simp [bestStep, hc]
      rw [hstep]
      rcases ih acc with ⟨heq, hall⟩ | ⟨pre, post, hdec, hlt, hpre, hmin⟩
      · left
        refine ⟨heq, ?_⟩
        intro x hx
        rcases List.mem_cons.mp hx with rfl | hx
        · exact hc
        · exact hall x hx
      · right
        have hbr : (List.foldl bestStep acc tl).1 < r.1 :=
          lt_of_lt_of_le hlt (not_lt.mp hc)
        refine ⟨r :: pre, post, by rw [List.cons_append, ← hdec], hlt, ?_, ?_⟩
        · intro x hx
          rcases List.mem_cons.mp hx with rfl | hx
          · exact hbr
          · exact hpre x hx
        · intro x hx
          rcases List.mem_cons.mp hx with rfl | hx
          · exact not_lt.mpr (le_of_lt hbr)
          · exact hmin x hx

/-- C6: whenever `_find_best_split_cpu` commits a split, the committed
candidate's score is the global minimum over the candidate results (invalid
empty-sided candidates carry the `inf` sentinel), and every candidate listed
before it scores strictly worse; since the results are listed in increasing
angle order, ties on the minimum are resolved to the smallest angle. -/
theorem c6_selected_split_is_first_minimum (geo : GeoBackend)
    (alg : RedistrictingAlgorithm) (area : List GeoUnit) (k1 k2 : ℤ)
    (p1 p2 : List GeoUnit)
    (h : find_best_split_cpu geo alg area k1 k2 = some (p1, p2)) :
    ∃ (s : WithTop ℚ) (pre post : List (WithTop ℚ × Option (List GeoUnit × List GeoUnit))),
      (angles.map fun angle =>
        process_angle geo angle area
          (sumPop area / ((k1 : ℚ) + (k2 : ℚ)) * (k1 : ℚ))
          alg.population_equality_weight alg.compactness_weight alg.partisan_weight
          alg.vra_compliance alg.communities_of_interest alg.coi_weight) =
        pre ++ (s, some (p1, p2)) :: post ∧
      (∀ r ∈ (angles.map fun angle =>
        process_angle geo angle area
          (sumPop area / ((k1 : ℚ) + (k2 : ℚ)) * (k1 : ℚ))
          alg.population_equality_weight alg.compactness_weight alg.partisan_weight
          alg.vra_compliance alg.communities_of_interest alg.coi_weight), s ≤ r.1) ∧
      (∀ r ∈ pre, s < r.1) := by
  simp only [find_best_split_cpu] at h
  split at h
  · simp at h
  · rcases foldl_bestStep_argmin (angles.map fun angle =>
        process_angle geo angle area
          (sumPop area / ((k1 : ℚ) + (k2 : ℚ)) * (k1 : ℚ))
          alg.population_equality_weight alg.compactness_weight alg.partisan_weight
          alg.vra_compliance alg.communities_of_interest alg.coi_weight) (⊤, none)
      with ⟨heq, -⟩ | ⟨pre, post, hdec, -, hpre, hmin⟩
    · rw [heq] at h
      simp at h
    · refine ⟨(List.foldl bestStep (⊤, none) _).1, pre, post, ?_, ?_, hpre⟩
      · rw [← h]
        exact hdec
      · intro r hr
        exact not_lt.mp (hmin r hr)

/-- Witness for C6 at the concrete two-unit split of `geoA`/`algA`. -/
theorem c6_selected_split_is_first_minimum_witness :
    find_best_split_cpu geoA algA [uA, uB] 1 1 = some ([uA], [uB]) ∧
    ∃ (s : WithTop ℚ) (pre post : List (WithTop ℚ × Option (List GeoUnit × List GeoUnit))),
      (angles.map fun angle =>
        process_angle geoA angle [uA, uB]
          (sumPop [uA, uB] / ((1 : ℚ) + (1 : ℚ)) * (1 : ℚ))
          algA.population_equality_weight algA.compactness_weight algA.partisan_weight
          algA.vra_compliance algA.communities_of_interest algA.coi_weight) =
        pre ++ (s, some ([uA], [uB])) :: post ∧
      (∀ r ∈ (angles.map fun angle =>
        process_angle geoA angle [uA, uB]
          (sumPop [uA, uB] / ((1 : ℚ) + (1 : ℚ)) * (1 : ℚ))
          algA.population_equality_weight algA.compactness_weight algA.partisan_weight
          algA.vra_compliance algA.communities_of_interest algA.coi_weight), s ≤ r.1) ∧
      (∀ r ∈ pre, s < r.1) :=
  ⟨find_best_split_geoA_eval,
    c6_selected_split_is_first_minimum geoA algA [uA, uB] 1 1 [uA] [uB]
      find_best_split_geoA_eval⟩

/-- `np.deg2rad`. -/
noncomputable def deg2rad (d : ℚ) : ℝ := (d : ℝ) * Real.pi / 180

/-- The splitting line determined by candidate angle `d` (in degrees): in
centroid-relative coordinates, the zero set of `_calculate_side`'s signed
test `(x - c_x)*sin(rad) - (y - c_y)*cos(rad)`. -/
def lineOfDeg (d : ℚ) : Set (ℝ × ℝ) :=
  {p | p.1 * Real.sin (deg2rad d) - p.2 * Real.cos (deg2rad d) = 0}

theorem deg2rad_zero : deg2rad 0 = 0 := by
  unfold deg2rad
  push_cast
  ring

theorem deg2rad_oneeighty : deg2rad 180 = Real.pi := by
  unfold deg2rad
  push_cast
  field_simp

theorem lineOfDeg_zero_eq_oneeighty : lineOfDeg 0 = lineOfDeg 180 := by
  ext p
  simp only [lineOfDeg, Set.mem_setOf_eq, deg2rad_zero, deg2rad_oneeighty,
    Real.sin_zero, Real.cos_zero, Real.sin_pi, Real.cos_pi]
  constructor <;> intro h <;> nlinarith [h]

theorem deg2rad_twenty_mul (i : ℕ) : deg2rad (20 * i) = i * Real.pi / 9 := by
  unfold deg2rad
  push_cast
  ring

theorem lineOfDeg_twenty_ne {a b : ℕ} (hab : a < b) (hb9 : b - a < 9) :
    lineOfDeg (20 * a) ≠ lineOfDeg (20 * b) := by
  intro hEq
  have hmem : ((Real.cos ((a : ℝ) * Real.pi / 9), Real.sin ((a : ℝ) * Real.pi / 9)) :
      ℝ × ℝ) ∈ lineOfDeg (20 * a) := by
    simp only [lineOfDeg, Set.mem_setOf_eq, deg2rad_twenty_mul]
    ring
  rw [hEq] at hmem
  simp only [lineOfDeg, Set.mem_setOf_eq, deg2rad_twenty_mul] at hmem
  have hsin : Real.sin ((b : ℝ) * Real.pi / 9 - (a : ℝ) * Real.pi / 9) = 0 := by
    rw [Real.sin_sub]
    linarith [hmem]
  have hdiff : (b : ℝ) * Real.pi / 9 - (a : ℝ) * Real.pi / 9 =
      ((b : ℝ) - (a : ℝ)) * Real.pi / 9 := by ring
  rw [hdiff] at hsin
  have hba1 : (1 : ℝ) ≤ (b : ℝ) - (a : ℝ) := by
    have hcast : (a : ℝ) + 1 ≤ (b : ℝ) := by exact_mod_cast hab
    linarith
  have hba9 : (b : ℝ) - (a : ℝ) < 9 := by
    have hlt : b < a + 9 := by omega
    have hcast : (b : ℝ) < (a : ℝ) + 9 := by exact_mod_cast hlt
    linarith
  have hpos : 0 < ((b : ℝ) - (a : ℝ)) * Real.pi / 9 := by
    have := Real.pi_pos
    nlinarith
  have hltpi : ((b : ℝ) - (a : ℝ)) * Real.pi / 9 < Real.pi := by
    have := Real.pi_pos
    nlinarith
  exact absurd hsin (ne_of_gt (Real.sin_pos_of_pos_of_lt_pi hpos hltpi))

/-- C5 counterexample: the evaluated candidate angles are
`np.linspace(0, 180, 10) = [0,20,...,180]`, ten samples over the closed
interval [0°,180°] (half-open spacing would be 18°), and the first and last
candidate angles 0° and 180° define the same splitting line. -/
theorem c5_closed_interval_duplicate_line_counterexample :
    (0 : ℚ) ∈ angles ∧ (180 : ℚ) ∈ angles ∧
    angles ≠ ((List.range 10).map fun i => (18 : ℚ) * i) ∧
    lineOfDeg 0 = lineOfDeg 180 := by
  refine ⟨?_, ?_, ?_, lineOfDeg_zero_eq_oneeighty⟩
  · rw [angles_eval]; simp
  · rw [angles_eval]; simp
  · rw [angles_eval]
    intro h
    have h2 := congrArg (fun l => l.get? 1) h
    simp [List.range_succ] at h2

/-- C5 amended: exactly 10 candidate angles, evenly spaced with step 20° over
the closed interval [0°,180°] (endpoints included); two candidate angles
define the same splitting line exactly when they are equal or they are the
endpoint pair {0°,180°}, so 9 distinct splitting lines are evaluated. -/
theorem c5_amended_angles_closed_interval (i j : ℕ) (hi : i < 10) (hj : j < 10) :
    angles = ((List.range 10).map fun n => (20 : ℚ) * n) ∧
    (lineOfDeg (20 * i) = lineOfDeg (20 * j) ↔
      i = j ∨ (i = 0 ∧ j = 9) ∨ (i = 9 ∧ j = 0)) := by
  constructor
  · rw [angles_eval]
    simp [List.range_succ]
    norm_num
  · constructor
    · intro hEq
      by_contra hcon
      push_neg at hcon
      obtain ⟨hij, h09, h90⟩ := hcon
      rcases lt_trichotomy i j with hlt | heq | hgt
      · have hd : j - i < 9 := by omega
        exact lineOfDeg_twenty_ne hlt hd hEq
      · exact hij heq
      · have hd : i - j < 9 := by omega
        exact lineOfDeg_twenty_ne hgt hd hEq.symm
    · intro hcase
      rcases hcase with rfl | ⟨rfl, rfl⟩ | ⟨rfl, rfl⟩
      · rfl
      · have h1 : (20 : ℚ) * ((0 : ℕ) : ℚ) = 0 := by norm_num
        have h2 : (20 : ℚ) * ((9 : ℕ) : ℚ) = 180 := by norm_num
        rw [h1, h2]
        exact lineOfDeg_zero_eq_oneeighty
      · have h1 : (20 : ℚ) * ((0 : ℕ) : ℚ) = 0 := by norm_num
        have h2 : (20 : ℚ) * ((9 : ℕ) : ℚ) = 180 := by norm_num
        rw [h1, h2]
        exact lineOfDeg_zero_eq_oneeighty.symm

/-- Witness for C5 (amended form) at the concrete angle indices 1 and 2. -/
theorem c5_amended_angles_closed_interval_witness :
    (1 : ℕ) < 10 ∧ (2 : ℕ) < 10 ∧
    (angles = ((List.range 10).map fun n => (20 : ℚ) * n) ∧
      (lineOfDeg (20 * (1 : ℕ)) = lineOfDeg (20 * (2 : ℕ)) ↔
        (1 : ℕ) = 2 ∨ ((1 : ℕ) = 0 ∧ (2 : ℕ) = 9) ∨ ((1 : ℕ) = 9 ∧ (2 : ℕ) = 0))) :=
  ⟨by norm_num, by norm_num,
    c5_amended_angles_closed_interval 1 2 (by norm_num) (by norm_num)⟩

/-- The Huntington-Hill priority comparison
`pop/sqrt(n*(n+1)) > pop'/sqrt(n'*(n'+1))`, written with cross-multiplied
squares, which is exactly equivalent for the positive populations the
function is specified for (the square root itself is irrational, so the
comparison is embedded in this exact algebraic form). -/
def priorityGt (pe pb : ℚ × ℕ) : Prop :=
  pb.1 ^ 2 * ((pe.2 * (pe.2 + 1) : ℕ) : ℚ) < pe.1 ^ 2 * ((pb.2 * (pb.2 + 1) : ℕ) : ℚ)

instance (pe pb : ℚ × ℕ) : Decidable (priorityGt pe pb) := by
  unfold priorityGt
  infer_instance

/-- `seats[state]` for the dictionary kept as an association list in
insertion order. -/
def lookupSeats (seats : List (String × ℕ)) (s : String) : ℕ :=
  ((seats.find? fun e => e.1 == s).map Prod.snd).getD 0

/-- `max(priorities, key=priorities.get)`: Python's `max` returns the first
element attaining the maximum in iteration order, i.e. it replaces the
running best only on a strictly greater key. -/
def maxByPriority : List (String × ℚ × ℕ) → Option (String × ℚ × ℕ)
  | [] => none
  | x :: xs => some (xs.foldl (fun b e => if priorityGt e.2 b.2 then e else b) x)

/-- `seats[next_seat_state] += 1`. -/
def bumpSeat (seats : List (String × ℕ)) (s : String) : List (String × ℕ) :=
  seats.map fun e => if e.1 = s then (e.1, e.2 + 1) else e

/-- The `for _ in range(remaining_seats)` allocation loop of
`calculate_apportionment`; `max` of an empty dictionary raises Python's
`ValueError: max() arg is an empty sequence`. -/
def allocateSeats (sp : List (String × ℚ)) :
    ℕ → List (String × ℕ) → Except String (List (String × ℕ))
  | 0, seats => .ok seats
  | r + 1, seats =>
    let priorities := sp.map fun e => (e.1, e.2, lookupSeats seats e.1)
    match maxByPriority priorities with
    | none => .error ("max() arg is an empty sequence")
    | some m => allocateSeats sp r (bumpSeat seats m.1)

/-- `calculate_apportionment` (src/core/apportionment.py): every state gets
one seat, the remaining `house_size - num_states` seats go one at a time to
the state with the current highest priority value; raises
`ValueError("House size must be at least the number of states.")` -- the
spec's `InvalidConfiguration` -- when the house is smaller than the state
count. -/
def calculate_apportionment (state_populations : List (String × ℚ))
    (house_size : ℤ) : Except String (List (String × ℕ)) :=
  let num_states := state_populations.length
  if house_size < (num_states : ℤ) then
    .error ("House size must be at least the number of states.")
  else
    let seats := state_populations.map fun s => (s.1, 1)
    let remaining_seats := (house_size - num_states).toNat
    allocateSeats state_populations remaining_seats seats

theorem foldl_priority_choice_mem (tl : List (String × ℚ × ℕ)) :
    ∀ x, tl.foldl (fun b e => if priorityGt e.2 b.2 then e else b) x ∈ x :: tl := by
  induction tl with
  | nil =>
    intro x
    simp
  | cons e tl ih =>
    intro x
    rw [List.foldl_cons]
    by_cases hc : priorityGt e.2 x.2
    · rw [if_pos hc]
      exact List.mem_cons_of_mem x (ih e)
    · rw [if_neg hc]
      rcases List.mem_cons.mp (ih x) with h | h
      · rw [h]
        exact List.mem_cons_self x (e :: tl)
      · exact List.mem_cons_of_mem x (List.mem_cons_of_mem e h)

theorem maxByPriority_mem {xs : List (String × ℚ × ℕ)} {m : String × ℚ × ℕ}
    (h : maxByPriority xs = some m) : m ∈ xs := by
  match xs with
  | [] => simp [maxByPriority] at h
  | x :: tl =>
    simp only [maxByPriority, Option.some.injEq] at h
    exact h ▸ foldl_priority_choice_mem tl x

theorem bumpSeat_keys (seats : List (String × ℕ)) (s : String) :
    (bumpSeat seats s).map Prod.fst = seats.map Prod.fst := by
  unfold bumpSeat
  rw [List.map_map]
  apply List.map_congr_left
  intro e _
  by_cases hc : e.1 = s
  · simp [hc]
  · simp [hc]

theorem bumpSeat_min (seats : List (String × ℕ)) (s : String)
    (h : ∀ e ∈ seats, 1 ≤ e.2) : ∀ e ∈ bumpSeat seats s, 1 ≤ e.2 := by
  intro e he
  unfold bumpSeat at he
  rw [List.mem_map] at he
  obtain ⟨x, hx, rfl⟩ := he
  by_cases hc : x.1 = s
  · simp only [if_pos hc]
    omega
  · simp only [if_neg hc]
    exact h x hx

theorem bumpSeat_of_not_mem (seats : List (String × ℕ)) (s : String)
    (h : s ∉ seats.map Prod.fst) : bumpSeat seats s = seats := by
  unfold bumpSeat
  conv_rhs => rw [← List.map_id seats]
  apply List.map_congr_left
  intro e he
  have hne : e.1 ≠ s := fun hh => h (hh ▸ List.mem_map_of_mem Prod.fst he)
  simp [hne]

theorem bumpSeat_sum (seats : List (String × ℕ)) (s : String) :
    (seats.map Prod.fst).Nodup → s ∈ seats.map Prod.fst →
    ((bumpSeat seats s).map Prod.snd).sum = (seats.map Prod.snd).sum + 1 := by
  induction seats with
  | nil =>
    intro _ hs
    simp at hs
  | cons e tl ih =>
    intro hnd hs
    rw [List.map_cons] at hnd hs
    rcases List.mem_cons.mp hs with heq | hmem
    · have hnotin : s ∉ tl.map Prod.fst := by
        rw [heq]
        exact (List.nodup_cons.mp hnd).1
      have htl : bumpSeat tl s = tl := bumpSeat_of_not_mem tl s hnotin
      unfold bumpSeat
      unfold bumpSeat at htl
      rw [List.map_cons, if_pos heq.symm, htl, List.map_cons, List.sum_cons,
        List.map_cons, List.sum_cons]
      omega
    · have hne : e.1 ≠ s := fun hh => (List.nodup_cons.mp hnd).1 (hh ▸ hmem)
      have htl := ih (List.nodup_cons.mp hnd).2 hmem
      unfold bumpSeat
      unfold bumpSeat at htl
      rw [List.map_cons, if_neg hne, List.map_cons, List.sum_cons,
        List.map_cons, List.sum_cons, htl]
      omega

theorem allocateSeats_spec (sp : List (String × ℚ)) (hsp : sp ≠ [])
    (hnd : (sp.map Prod.fst).Nodup) :
    ∀ (r : ℕ) (seats : List (String × ℕ)),
      seats.map Prod.fst = sp.map Prod.fst →
      (∀ e ∈ seats, 1 ≤ e.2) →
      ∃ final, allocateSeats sp r seats = .ok final ∧
        final.map Prod.fst = sp.map Prod.fst ∧
        (∀ e ∈ final, 1 ≤ e.2) ∧
        (final.map Prod.snd).sum = (seats.map Prod.snd).sum + r := by
  intro r
  induction r with
  | zero =>
    intro seats hkeys hone
    exact ⟨seats, rfl, hkeys, hone, by omega⟩
  | succ r ih =>
    intro seats hkeys hone
    have hpri : sp.map (fun e => (e.1, e.2, lookupSeats seats e.1)) ≠ [] := by
      rw [Ne, List.map_eq_nil_iff]
      exact hsp
    obtain ⟨x, xs, hx⟩ := List.exists_cons_of_ne_nil hpri
    have hsome : ∃ m, maxByPriority
        (sp.map fun e => (e.1, e.2, lookupSeats seats e.1)) = some m := by
      rw [hx]
      exact ⟨_, rfl⟩
    obtain ⟨m, hm⟩ := hsome
    have hmem := maxByPriority_mem hm
    have hkey : m.1 ∈ sp.map Prod.fst := by
      rw [List.mem_map] at hmem ⊢
      obtain ⟨e, he, hfe⟩ := hmem
      exact ⟨e, he, by rw [← hfe]⟩
    have hkeys2 : (bumpSeat seats m.1).map Prod.fst = sp.map Prod.fst := by
      rw [bumpSeat_keys, hkeys]
    obtain ⟨final, hrun, hk, ho, hsum⟩ :=
      ih (bumpSeat seats m.1) hkeys2 (bumpSeat_min seats m.1 hone)
    refine ⟨final, ?_, hk, ho, ?_⟩
    · simp only [allocateSeats]
      rw [hm]
      exact hrun
    · rw [hsum, bumpSeat_sum seats m.1 (hkeys.symm ▸ hnd) (hkeys.symm ▸ hkey)]
      omega

theorem initial_seats_keys (sp : List (String × ℚ)) :
    (sp.map fun s => (s.1, (1 : ℕ))).map Prod.fst = sp.map Prod.fst := by
  rw [List.map_map]
  apply List.map_congr_left
  intro e _
  rfl

theorem initial_seats_sum (sp : List (String × ℚ)) :
    ((sp.map fun s => (s.1, (1 : ℕ))).map Prod.snd).sum = sp.length := by
  induction sp with
  | nil => rfl
  | cons e tl ih =>
    simp only [List.map_cons, List.sum_cons, List.length_cons]
    rw [ih]
    omega

theorem str_cap_AA : (("A" : String) == "A") = true := by simp

theorem str_cap_BA : (("B" : String) == "A") = false := by simp

theorem str_cap_BB : (("B" : String) == "B") = true := by simp

theorem str_cap_AB : (("A" : String) == "B") = false := by simp

theorem str_cap_B_ne_A : (("B" : String) = "A") = False := by simp

theorem apportionment_example_eval :
    calculate_apportionment [("A", (900 : ℚ)), ("B", 100)] 3 =
      .ok [("A", 2), ("B", 1)] := by
  norm_num [calculate_apportionment, allocateSeats, maxByPriority, bumpSeat,
    lookupSeats, priorityGt, List.find?_cons, str_cap_AA, str_cap_BA,
    str_cap_BB, str_cap_AB, str_cap_B_ne_A]

/-- C2: apportionment conservation.  For a nonempty mapping (distinct state
keys, positive populations): house sizes below the state count fail with the
`InvalidConfiguration` ValueError; otherwise the result assigns every state
an integer seat count of at least 1 summing to exactly the house size, and on
populations A:900, B:100 with house size 3 the result is A:2, B:1. -/
theorem c2_apportionment_conservation :
    (∀ (sp : List (String × ℚ)) (H : ℤ),
      sp ≠ [] → (sp.map Prod.fst).Nodup → (∀ e ∈ sp, 0 < e.2) →
      ((H < (sp.length : ℤ) →
        calculate_apportionment sp H =
          .error ("House size must be at least the number of states.")) ∧
       ((sp.length : ℤ) ≤ H →
        ∃ seats, calculate_apportionment sp H = .ok seats ∧
          seats.map Prod.fst = sp.map Prod.fst ∧
          (∀ e ∈ seats, 1 ≤ e.2) ∧
          ((seats.map Prod.snd).sum : ℤ) = H))) ∧
    calculate_apportionment [("A", (900 : ℚ)), ("B", 100)] 3 =
      .ok [("A", 2), ("B", 1)] := by
  refine ⟨?_, apportionment_example_eval⟩
  intro sp H hsp hnd _
  constructor
  · intro hlt
    simp only [calculate_apportionment]
    rw [if_pos hlt]
  · intro hge
    simp only [calculate_apportionment]
    rw [if_neg (not_lt.mpr hge)]
    have hone : ∀ e ∈ sp.map fun s => (s.1, (1 : ℕ)), 1 ≤ e.2 := by
      intro e he
      rw [List.mem_map] at he
      obtain ⟨x, -, rfl⟩ := he
      exact le_refl 1
    obtain ⟨final, hrun, hk, ho, hsum⟩ :=
      allocateSeats_spec sp hsp hnd (H - sp.length).toNat
        (sp.map fun s => (s.1, (1 : ℕ))) (initial_seats_keys sp) hone
    refine ⟨final, hrun, hk, ho, ?_⟩
    rw [hsum, initial_seats_sum]
    have htn : ((H - (sp.length : ℤ)).toNat : ℤ) = H - sp.length :=
      Int.toNat_of_nonneg (by omega)
    push_cast
    omega

/-- Witness for C2 at the concrete input of the claim's example. -/
theorem c2_apportionment_conservation_witness :
    ([("A", (900 : ℚ)), ("B", 100)] ≠ ([] : List (String × ℚ))) ∧
    (([("A", (900 : ℚ)), ("B", 100)].map Prod.fst).Nodup) ∧
    (∀ e ∈ [("A", (900 : ℚ)), ("B", 100)], 0 < e.2) ∧
    (((2 : ℤ) ≤ 3) ∧
      ∃ seats, calculate_apportionment [("A", (900 : ℚ)), ("B", 100)] 3 = .ok seats ∧
        seats.map Prod.fst = [("A", (900 : ℚ)), ("B", 100)].map Prod.fst ∧
        (∀ e ∈ seats, 1 ≤ e.2) ∧
        ((seats.map Prod.snd).sum : ℤ) = 3) := by
  have h1 : [("A", (900 : ℚ)), ("B", 100)] ≠ ([] : List (String × ℚ)) := by simp
  have h2 : (([("A", (900 : ℚ)), ("B", 100)].map Prod.fst)).Nodup := by simp
  have h3 : ∀ e ∈ [("A", (900 : ℚ)), ("B", 100)], 0 < e.2 := by
    intro e he
    rcases List.mem_cons.mp he with rfl | he2
    · norm_num
    · rcases List.mem_cons.mp he2 with rfl | he3
      · norm_num
      · cases he3
  refine ⟨h1, h2, h3, by norm_num, ?_⟩
  have := (c2_apportionment_conservation.1 [("A", (900 : ℚ)), ("B", 100)] 3 h1 h2 h3).2
    (by norm_num)
  simpa using this

/-- C2 counterexample: for the empty mapping and house size 1 (which is not
smaller than the state count 0), the code does not return a seat assignment
at all -- the allocation loop crashes on `max` of an empty dictionary. -/
theorem c2_empty_mapping_counterexample :
    calculate_apportionment ([] : List (String × ℚ)) 1 =
      .error ("max() arg is an empty sequence") ∧
    (((([] : List (String × ℚ)).length : ℤ)) ≤ 1) ∧
    ∀ seats, calculate_apportionment ([] : List (String × ℚ)) 1 ≠ .ok seats := by
  refine ⟨?_, by norm_num, ?_⟩
  · norm_num [calculate_apportionment, allocateSeats, maxByPriority]
  · intro seats h
    rw [show calculate_apportionment ([] : List (String × ℚ)) 1 =
        .error ("max() arg is an empty sequence") from by
      norm_num [calculate_apportionment, allocateSeats, maxByPriority]] at h
    cases h

/-- What `polsby_popper` reads from a GeoDataFrame: whether the frame is
empty, and its `unary_union`'s `.area` and `.length` (perimeter), the float
measurements modelled as exact rationals. -/
structure GeoFrame where
  isEmpty : Bool
  area : ℚ
  length : ℚ

/-- `polsby_popper` (src/core/utils.py; `_polsby_popper_static` in
redistricting_algorithms.py is the same function):
`4*pi*area / perimeter**2`, with 0 for an empty frame, a zero-area union or a
zero perimeter. -/
noncomputable def polsby_popper (g : GeoFrame) : ℝ :=
  if g.isEmpty = true ∨ g.area = 0 then 0
  else if g.length = 0 then 0
  else 4 * Real.pi * (g.area : ℝ) / ((g.length : ℝ)) ^ 2

/-- A non-degenerate polygon union's measurements: nonnegative area and
perimeter satisfying the planar isoperimetric inequality `4*pi*A <= P^2`,
which holds for the `unary_union` of every actual GeoDataFrame geometry. -/
def IsPlanarMeasure (g : GeoFrame) : Prop :=
  0 ≤ g.area ∧ 0 ≤ g.length ∧ 4 * Real.pi * (g.area : ℝ) ≤ ((g.length : ℝ)) ^ 2

/-- C9: the compactness score lies in [0, 1] for every region whose polygon
union is non-degenerate (its measurements satisfy the planar isoperimetric
inequality), and the compactness of an empty region equals 0. -/
theorem c9_compactness_bounds :
    (∀ g : GeoFrame, IsPlanarMeasure g →
      0 ≤ polsby_popper g ∧ polsby_popper g ≤ 1) ∧
    (∀ g : GeoFrame, g.isEmpty = true → polsby_popper g = 0) := by
  constructor
  · intro g hg
    obtain ⟨ha, hl, hiso⟩ := hg
    unfold polsby_popper
    split
    · norm_num
    · split
      · norm_num
      · rename_i h1 h2
        have hlne : (g.length : ℝ) ≠ 0 := by
          intro hc
          exact h2 (by exact_mod_cast hc)
        have hp2 : (0 : ℝ) < ((g.length : ℝ)) ^ 2 :=
          lt_of_le_of_ne (sq_nonneg _) (Ne.symm (pow_ne_zero 2 hlne))
        constructor
        · apply div_nonneg _ (le_of_lt hp2)
          have hpi := Real.pi_pos
          have haR : (0 : ℝ) ≤ (g.area : ℝ) := by exact_mod_cast ha
          nlinarith
        · rw [div_le_one hp2]
          exact hiso
  · intro g hg
    unfold polsby_popper
    rw [if_pos (Or.inl hg)]

/-- Witness for C9: a unit square (area 1, perimeter 4) satisfies the
isoperimetric inequality and its score lies in [0, 1]. -/
theorem c9_compactness_bounds_witness :
    IsPlanarMeasure { isEmpty := false, area := 1, length := 4 } ∧
    (0 ≤ polsby_popper { isEmpty := false, area := 1, length := 4 } ∧
      polsby_popper { isEmpty := false, area := 1, length := 4 } ≤ 1) :=
  have hpm : IsPlanarMeasure { isEmpty := false, area := 1, length := 4 } := by
    refine ⟨by norm_num, by norm_num, ?_⟩
    have := Real.pi_le_four
    push_cast
    nlinarith
  ⟨hpm, c9_compactness_bounds.1 _ hpm⟩

/-- The symmetrised touches-adjacency of `is_contiguous`: the spatial index
hits `sindex.query(geom_i, predicate="touches")` are added in both
directions, so `j` is adjacent to `i` when `j ≠ i` and either query direction
reports a touch.  The geometric `touches` predicate is the abstracted
shapely backend; vertices are row indices `0..n-1`. -/
def neighbors (n : ℕ) (touches : ℕ → ℕ → Bool) (i : ℕ) : List ℕ :=
  (List.range n).filter fun j => (j != i) && (touches i j || touches j i)

theorem neighbors_sub (n : ℕ) (touches : ℕ → ℕ → Bool) (i : ℕ) :
    ∀ j ∈ neighbors n touches i,
      j < n ∧ j ≠ i ∧ (touches i j = true ∨ touches j i = true) := by
  intro j hj
  unfold neighbors at hj
  rw [List.mem_filter, List.mem_range] at hj
  obtain ⟨hjn, hcond⟩ := hj
  rw [Bool.and_eq_true, Bool.or_eq_true, bne_iff_ne] at hcond
  exact ⟨hjn, hcond.1, hcond.2⟩

theorem mem_neighbors (n : ℕ) (touches : ℕ → ℕ → Bool) (i j : ℕ)
    (hjn : j < n) (hne : j ≠ i)
    (ht : touches i j = true ∨ touches j i = true) :
    j ∈ neighbors n touches i := by
  unfold neighbors
  rw [List.mem_filter, List.mem_range]
  refine ⟨hjn, ?_⟩
  rw [Bool.and_eq_true, Bool.or_eq_true, bne_iff_ne]
  exact ⟨hne, ht⟩

theorem sdiff_union_card_lt {n : ℕ} {seen : Finset ℕ} {new : List ℕ}
    (hne : new ≠ []) (hsub : ∀ j ∈ new, j ∈ Finset.range n ∧ j ∉ seen) :
    (Finset.range n \ (seen ∪ new.toFinset)).card < (Finset.range n \ seen).card := by
  obtain ⟨j, hj⟩ := List.exists_mem_of_ne_nil new hne
  apply Finset.card_lt_card
  rw [Finset.ssubset_def]
  constructor
  · exact Finset.sdiff_subset_sdiff (Finset.Subset.refl _) Finset.subset_union_left
  · intro hsup
    have hj1 : j ∈ Finset.range n \ seen :=
      Finset.mem_sdiff.mpr ⟨(hsub j hj).1, (hsub j hj).2⟩
    have hj2 : j ∉ Finset.range n \ (seen ∪ new.toFinset) := by
      rw [Finset.mem_sdiff]
      push_neg
      intro _
      exact Finset.mem_union_right _ (List.mem_toFinset.mpr hj)
    exact hj2 (hsup hj1)

/-- The traversal loop of `is_contiguous`: pop the top of the stack, push
the neighbours not yet seen, marking them seen as they are pushed. -/
def dfsLoop (n : ℕ) (touches : ℕ → ℕ → Bool) :
    List ℕ → Finset ℕ → Finset ℕ
  | [], seen => seen
  | cur :: stack, seen =>
    let new := (neighbors n touches cur).filter fun j => decide (j ∉ seen)
    dfsLoop n touches (new ++ stack) (seen ∪ new.toFinset)
termination_by stack seen => ((Finset.range n \ seen).card, stack.length)
decreasing_by
  by_cases hnew : (neighbors n touches cur).filter (fun j => decide (j ∉ seen)) = []
  · rw [hnew]
    simp only [List.toFinset_nil, Finset.union_empty, List.nil_append]
    apply Prod.Lex.right
    simp
  · apply Prod.Lex.left
    apply sdiff_union_card_lt hnew
    intro j hj
    rw [List.mem_filter, decide_eq_true_eq] at hj
    exact ⟨Finset.mem_range.mpr (neighbors_sub n touches cur j hj.1).1, hj.2⟩

/-- `is_contiguous` (src/core/utils.py): an empty frame is contiguous;
otherwise run the stack traversal from row 0 over the symmetrised
touches-adjacency and test whether every row was seen. -/
def is_contiguous (n : ℕ) (touches : ℕ → ℕ → Bool) : Bool :=
  if n = 0 then true
  else decide ((dfsLoop n touches [0] {0}).card = n)

/-- The adjacency graph of the region: an edge joins two distinct units
whenever their geometries touch (in either query direction, as the code
symmetrises). -/
def Edge (n : ℕ) (touches : ℕ → ℕ → Bool) (i j : ℕ) : Prop :=
  i < n ∧ j < n ∧ i ≠ j ∧ (touches i j = true ∨ touches j i = true)

theorem dfsLoop_spec (n : ℕ) (touches : ℕ → ℕ → Bool) :
    ∀ (stack : List ℕ) (seen : Finset ℕ),
      (∀ v ∈ stack, v ∈ seen) →
      (∀ v ∈ seen, v ∈ Finset.range n) →
      (∀ v ∈ seen, Relation.ReflTransGen (Edge n touches) 0 v) →
      (∀ v ∈ seen, v ∉ stack → ∀ j, Edge n touches v j → j ∈ seen) →
      (seen ⊆ dfsLoop n touches stack seen ∧
        (∀ v ∈ dfsLoop n touches stack seen, v ∈ Finset.range n) ∧
        (∀ v ∈ dfsLoop n touches stack seen,
          Relation.ReflTransGen (Edge n touches) 0 v) ∧
        (∀ v ∈ dfsLoop n touches stack seen, ∀ j, Edge n touches v j →
          j ∈ dfsLoop n touches stack seen)) := by
  intro stack seen
  induction stack, seen using dfsLoop.induct n touches with
  | case1 seen =>
    intro _ hrange hreach hclosed
    rw [dfsLoop]
    exact ⟨Finset.Subset.refl _, hrange, hreach,
      fun v hv j he => hclosed v hv (List.not_mem_nil v) j he⟩
  | case2 cur stack seen new ih =>
    intro hstack hrange hreach hclosed
    simp only [dfsLoop]
    have hcur : cur ∈ seen := hstack cur (List.mem_cons_self cur stack)
    have hcurn : cur < n := Finset.mem_range.mp (hrange cur hcur)
    have hnew_spec : ∀ j ∈ (neighbors n touches cur).filter
        (fun j => decide (j ∉ seen)),
        j < n ∧ j ≠ cur ∧ (touches cur j = true ∨ touches j cur = true) ∧
          j ∉ seen := by
      intro j hj
      rw [List.mem_filter, decide_eq_true_eq] at hj
      have hns := neighbors_sub n touches cur j hj.1
      exact ⟨hns.1, hns.2.1, hns.2.2, hj.2⟩
    have I1 : ∀ v ∈ ((neighbors n touches cur).filter
        (fun j => decide (j ∉ seen))) ++ stack,
        v ∈ seen ∪ ((neighbors n touches cur).filter
          (fun j => decide (j ∉ seen))).toFinset := by
      intro v hv
      rcases List.mem_append.mp hv with hv | hv
      · exact Finset.mem_union_right _ (List.mem_toFinset.mpr hv)
      · exact Finset.mem_union_left _ (hstack v (List.mem_cons_of_mem cur hv))
    have I2 : ∀ v ∈ seen ∪ ((neighbors n touches cur).filter
        (fun j => decide (j ∉ seen))).toFinset, v ∈ Finset.range n := by
      intro v hv
      rcases Finset.mem_union.mp hv with hv | hv
      · exact hrange v hv
      · exact Finset.mem_range.mpr (hnew_spec v (List.mem_toFinset.mp hv)).1
    have I3 : ∀ v ∈ seen ∪ ((neighbors n touches cur).filter
        (fun j => decide (j ∉ seen))).toFinset,
        Relation.ReflTransGen (Edge n touches) 0 v := by
      intro v hv
      rcases Finset.mem_union.mp hv with hv | hv
      · exact hreach v hv
      · obtain ⟨hvn, hvne, ht, -⟩ := hnew_spec v (List.mem_toFinset.mp hv)
        exact Relation.ReflTransGen.tail (hreach cur hcur)
          ⟨hcurn, hvn, fun hh => hvne hh.symm, ht⟩
    have I4 : ∀ v ∈ seen ∪ ((neighbors n touches cur).filter
        (fun j => decide (j ∉ seen))).toFinset,
        v ∉ ((neighbors n touches cur).filter
          (fun j => decide (j ∉ seen))) ++ stack →
        ∀ j, Edge n touches v j →
          j ∈ seen ∪ ((neighbors n touches cur).filter
            (fun j => decide (j ∉ seen))).toFinset := by
      intro v hv hvno j hej
      by_cases hvc : v = cur
      · subst hvc
        obtain ⟨-, hjn, hne, ht⟩ := hej
        by_cases hjs : j ∈ seen
        · exact Finset.mem_union_left _ hjs
        · have hjnb : j ∈ neighbors n touches v :=
            mem_neighbors n touches v j hjn (fun hh => hne hh.symm) ht
          have hjnew : j ∈ (neighbors n touches v).filter
              (fun j => decide (j ∉ seen)) := by
            rw [List.mem_filter, decide_eq_true_eq]
            exact ⟨hjnb, hjs⟩
          exact Finset.mem_union_right _ (List.mem_toFinset.mpr hjnew)
      · rcases Finset.mem_union.mp hv with hvs | hvnew
        · have hvnostack : v ∉ cur :: stack := by
            intro hh
            rcases List.mem_cons.mp hh with rfl | hh
            · exact hvc rfl
            · exact hvno (List.mem_append.mpr (Or.inr hh))
          exact Finset.mem_union_left _ (hclosed v hvs hvnostack j hej)
        · exact absurd
            (List.mem_append.mpr (Or.inl (List.mem_toFinset.mp hvnew))) hvno
    obtain ⟨hsub, hr, hre, hcl⟩ := ih I1 I2 I3 I4
    exact ⟨Finset.Subset.trans Finset.subset_union_left hsub, hr, hre, hcl⟩

theorem is_contiguous_iff (n : ℕ) (touches : ℕ → ℕ → Bool) :
    is_contiguous n touches = true ↔
      ∀ j < n, Relation.ReflTransGen (Edge n touches) 0 j := by
  unfold is_contiguous
  by_cases hn : n = 0
  · subst hn
    simp
  · rw [if_neg hn]
    have h0n : 0 < n := Nat.pos_of_ne_zero hn
    obtain ⟨hsub, hrange, hreach, hclosed⟩ :=
      dfsLoop_spec n touches [0] {0}
        (by
          intro v hv
          rcases List.mem_cons.mp hv with rfl | hv
          · exact Finset.mem_singleton_self 0
          · cases hv)
        (by
          intro v hv
          rw [Finset.mem_singleton] at hv
          subst hv
          exact Finset.mem_range.mpr h0n)
        (by
          intro v hv
          rw [Finset.mem_singleton] at hv
          subst hv
          exact Relation.ReflTransGen.refl)
        (by
          intro v hv hvno
          exfalso
          rw [Finset.mem_singleton] at hv
          subst hv
          exact hvno (List.mem_cons_self 0 []))
    rw [decide_eq_true_eq]
    have h0S : 0 ∈ dfsLoop n touches [0] {0} := hsub (Finset.mem_singleton_self 0)
    have hreachS : ∀ j, Relation.ReflTransGen (Edge n touches) 0 j →
        j ∈ dfsLoop n touches [0] {0} := by
      intro j hj
      induction hj with
      | refl => exact h0S
      | tail hab he ih2 => exact hclosed _ ih2 _ he
    have hSrange : dfsLoop n touches [0] {0} ⊆ Finset.range n :=
      fun v hv => hrange v hv
    constructor
    · intro hcard j hj
      have hSeq : dfsLoop n touches [0] {0} = Finset.range n :=
        Finset.eq_of_subset_of_card_le hSrange
          (by rw [hcard, Finset.card_range])
      exact hreach j (by rw [hSeq]; exact Finset.mem_range.mpr hj)
    · intro hall
      have hsup : Finset.range n ⊆ dfsLoop n touches [0] {0} := by
        intro j hj
        exact hreachS j (hall j (Finset.mem_range.mp hj))
      rw [Finset.Subset.antisymm hSrange hsup, Finset.card_range]

/-- C10: `is_contiguous` returns True exactly when the graph whose vertices
are the region's units, with an edge wherever two units' geometries touch,
is connected from the first unit (the traversal from unit 0 visits every
unit); in particular it returns True for the empty region and for every
single-unit region. -/
theorem c10_is_contiguous_iff_connected :
    (∀ (n : ℕ) (touches : ℕ → ℕ → Bool),
      is_contiguous n touches = true ↔
        ∀ j < n, Relation.ReflTransGen (Edge n touches) 0 j) ∧
    (∀ touches : ℕ → ℕ → Bool, is_contiguous 0 touches = true) ∧
    (∀ touches : ℕ → ℕ → Bool, is_contiguous 1 touches = true) := by
  refine ⟨is_contiguous_iff, fun touches => rfl, fun touches => ?_⟩
  rw [is_contiguous_iff]
  intro j hj
  have hj0 : j = 0 := by omega
  subst hj0
  exact Relation.ReflTransGen.refl

/-- Witness for C10: the theorem applied at a concrete one-unit region. -/
theorem c10_is_contiguous_iff_connected_witness :
    is_contiguous 1 (fun _ _ => false) = true :=
  c10_is_contiguous_iff_connected.2.2 (fun _ _ => false)
